import Mathlib

/-!
Verification of the olcPGEX key-combo manager (`src/olcPGEX_KeyCombo.h`).

The source is a single C++ header: a registry of key combinations
(`RegisterKeyCombo`, `GetKeyCombo`) and a per-frame evaluator
(`OnBeforeUserUpdate`) that derives each combo's pressed/held/released
flags from the host engine's per-key state.  We embed the data model and
the three operations shallowly: the host's `pge->GetKey` capability is a
parameter of type `Key → HWButton`, the `std::vector` registry is a
`List`, and the evaluator is a pure function on the registry state.
-/

namespace olc

/-- The host engine's per-key (and per-combo) button state: `bPressed` on
the activation frame, `bHeld` while active, `bReleased` on the
deactivation frame.  All fields default to `false`, as in the engine. -/
structure HWButton where
  bPressed : Bool := false
  bReleased : Bool := false
  bHeld : Bool := false
deriving Repr, DecidableEq

/-- Key identifiers (the `olc::Key` enumeration) are embedded as naturals;
the code only ever passes them to the host's key-state query. -/
abbrev Key := Nat

namespace keycombo

/-- `KeyComboDefinition`: terminal key, number of modifiers that must be
held, and the modifier keys.  The source stores the modifiers in a
fixed `std::array<olc::Key, 4>` of which only the first `ModifierCount`
slots are ever read; we embed the stored slots as a list and always
access them through `List.take ModifierCount`, mirroring the iterator
range `Modifiers.begin() .. Modifiers.begin() + ModifierCount`. -/
structure KeyComboDefinition where
  Key : olc.Key
  ModifierCount : Nat
  Modifiers : List olc.Key
deriving Repr, DecidableEq

/-- The registration failure kind: the definition constructor's
compile-time modifier bound, modelled as a fallible construction. -/
inductive KeyComboError where
  | ConfigurationError
deriving Repr, DecidableEq

/-- The `KeyComboDefinition` constructor: takes the terminal key and the
modifier array and sets `ModifierCount` to its length.  The source
enforces `static_assert(NumMods <= 4)`; a violation makes construction
fail, which we embed as a `ConfigurationError`. -/
def mkKeyComboDefinition (MainKey : olc.Key) (Mods : List olc.Key) :
    Except KeyComboError KeyComboDefinition :=
  if Mods.length ≤ 4 then
    .ok { Key := MainKey, ModifierCount := Mods.length, Modifiers := Mods }
  else
    .error .ConfigurationError

/-- A registry entry: the immutable definition, the exposed `HWButton`
state, and the raw activity signal of the previous (`StateOld`) and
current (`StateNew`) frame. -/
structure KeyCombo where
  Definition : KeyComboDefinition
  State : HWButton
  StateOld : Bool
  StateNew : Bool
deriving Repr, DecidableEq

/-- The entry pushed by `RegisterKeyCombo`: `{ def , {} }`, i.e. the given
definition with value-initialised (all-false) state. -/
def initCombo (d : KeyComboDefinition) : KeyCombo :=
  { Definition := d, State := {}, StateOld := false, StateNew := false }

/-- The manager's registry: the private `std::vector<KeyCombo> KeyCombos`. -/
structure KeyComboManager where
  KeyCombos : List KeyCombo
deriving Repr, DecidableEq

/-- `RegisterKeyCombo`: `KeyCombos.push_back({ def , {} }); return
KeyCombos.size() - 1;`.  Returns the updated manager and the handle. -/
def RegisterKeyCombo (m : KeyComboManager) (d : KeyComboDefinition) :
    KeyComboManager × Nat :=
  ({ KeyCombos := m.KeyCombos ++ [initCombo d] }, m.KeyCombos.length)

/-- `GetKeyCombo`: `return KeyCombos[i].State;`.  The source indexes the
vector with unchecked `std::vector::operator[]`: an out-of-range access
has no defined result.  The partial read is embedded as an `Option`:
`none` is the undefined out-of-range access — the source computes no
error value there. -/
def GetKeyCombo (m : KeyComboManager) (i : Nat) : Option HWButton :=
  (m.KeyCombos[i]?).map (fun kc => kc.State)

/-- The per-entry body of `OnBeforeUserUpdate`, translated statement by
statement: compute `mods_held` over the first `ModifierCount` modifiers,
reset the pulse flags, query the terminal key, compute the raw signal
`StateNew`, update the flags on an edge, and store `StateOld = StateNew`.
(The reset touches only `bPressed`/`bReleased`, so reading `bHeld` after
it reads the pre-frame value, exactly as the source does.) -/
def stepCombo (GetKey : olc.Key → HWButton) (kc : KeyCombo) : KeyCombo :=
  let mods_held : Bool :=
    (kc.Definition.Modifiers.take kc.Definition.ModifierCount).all
      (fun k => (GetKey k).bHeld)
  let st1 : HWButton := { kc.State with bPressed := false, bReleased := false }
  let keyState : HWButton := GetKey kc.Definition.Key
  let stateNew : Bool :=
    mods_held && (keyState.bPressed || (st1.bHeld && keyState.bHeld))
  let st2 : HWButton :=
    if stateNew != kc.StateOld then
      if stateNew then { st1 with bPressed := !st1.bHeld, bHeld := true }
      else { st1 with bReleased := true, bHeld := false }
    else st1
  { kc with State := st2, StateOld := stateNew, StateNew := stateNew }

/-- `OnBeforeUserUpdate`: runs `stepCombo` on every registered entry,
using the host's key-state query `GetKey` (the source's `pge->GetKey`). -/
def OnBeforeUserUpdate (GetKey : olc.Key → HWButton) (m : KeyComboManager) :
    KeyComboManager :=
  { KeyCombos := m.KeyCombos.map (stepCombo GetKey) }

/-- The `mods_held` conjunction of `OnBeforeUserUpdate`, as a standalone
function: all of the first `ModifierCount` modifier keys are held. -/
def modsHeld (GetKey : olc.Key → HWButton) (d : KeyComboDefinition) : Bool :=
  (d.Modifiers.take d.ModifierCount).all (fun k => (GetKey k).bHeld)

/-- The raw activity signal `StateNew` of `OnBeforeUserUpdate`, as a
standalone function of the pre-frame entry. -/
def rawActive (GetKey : olc.Key → HWButton) (kc : KeyCombo) : Bool :=
  modsHeld GetKey kc.Definition &&
    ((GetKey kc.Definition.Key).bPressed ||
      (kc.State.bHeld && (GetKey kc.Definition.Key).bHeld))

/-- Closed form of `stepCombo`: the raw signal is stored in `StateOld` and
`StateNew`, and the exposed state is updated by edge detection against
the previous frame's raw signal. -/
lemma stepCombo_eq (GetKey : olc.Key → HWButton) (kc : KeyCombo) :
    stepCombo GetKey kc =
      { Definition := kc.Definition
        State :=
          if rawActive GetKey kc = kc.StateOld then
            { kc.State with bPressed := false, bReleased := false }
          else if rawActive GetKey kc then
            { bPressed := !kc.State.bHeld, bReleased := false, bHeld := true }
          else
            { bPressed := false, bReleased := true, bHeld := false }
        StateOld := rawActive GetKey kc
        StateNew := rawActive GetKey kc } := by
  obtain ⟨d, ⟨p, r, h⟩, so, sn⟩ := kc
  simp only [stepCombo, rawActive, modsHeld]
  cases hm : (d.Modifiers.take d.ModifierCount).all (fun k => (GetKey k).bHeld) <;>
    cases hp : (GetKey d.Key).bPressed <;>
    cases hh : (GetKey d.Key).bHeld <;>
    cases h <;> cases so <;>
    simp [hm, hp, hh]

/-- Entry states reachable from registration time via any sequence of
evaluator frames (each frame with an arbitrary host key state). -/
inductive Reachable : KeyCombo → Prop where
  | registered (d : KeyComboDefinition) : Reachable (initCombo d)
  | step (GetKey : olc.Key → HWButton) {kc : KeyCombo} :
      Reachable kc → Reachable (stepCombo GetKey kc)

lemma stateOld_after (GetKey : olc.Key → HWButton) (kc : KeyCombo) :
    (stepCombo GetKey kc).StateOld = rawActive GetKey kc := by
  rw [stepCombo_eq]

lemma stateNew_after (GetKey : olc.Key → HWButton) (kc : KeyCombo) :
    (stepCombo GetKey kc).StateNew = rawActive GetKey kc := by
  rw [stepCombo_eq]

lemma held_after (GetKey : olc.Key → HWButton) (kc : KeyCombo)
    (h : kc.State.bHeld = kc.StateOld) :
    (stepCombo GetKey kc).State.bHeld = rawActive GetKey kc := by
  rw [stepCombo_eq]
  cases hr : rawActive GetKey kc <;> cases ho : kc.StateOld <;>
    simp_all

lemma pressed_after (GetKey : olc.Key → HWButton) (kc : KeyCombo)
    (h : kc.State.bHeld = kc.StateOld) :
    (stepCombo GetKey kc).State.bPressed =
      (!kc.State.bHeld && rawActive GetKey kc) := by
  rw [stepCombo_eq]
  cases hr : rawActive GetKey kc <;> cases ho : kc.StateOld <;>
    simp_all

lemma released_after (GetKey : olc.Key → HWButton) (kc : KeyCombo)
    (h : kc.State.bHeld = kc.StateOld) :
    (stepCombo GetKey kc).State.bReleased =
      (kc.State.bHeld && !rawActive GetKey kc) := by
  rw [stepCombo_eq]
  cases hr : rawActive GetKey kc <;> cases ho : kc.StateOld <;>
    simp_all

/-- Reachable entries keep the exposed held flag in lock-step with the
stored raw signals: `State.bHeld = StateOld = StateNew`. -/
lemma Reachable.flags (h : Reachable kc) :
    kc.State.bHeld = kc.StateOld ∧ kc.StateOld = kc.StateNew := by
  induction h with
  | registered d => exact ⟨rfl, rfl⟩
  | step GetKey hr ih =>
    refine ⟨?_, ?_⟩
    · rw [held_after _ _ ih.1, stateOld_after]
    · rw [stateOld_after, stateNew_after]

/-- Registration through the public construction path: build the
definition (the constructor is where the modifier bound is enforced) and,
on success, register it.  A failed construction leaves the manager
untouched. -/
def RegisterKeyComboChecked (m : KeyComboManager) (MainKey : olc.Key)
    (Mods : List olc.Key) : KeyComboManager × Except KeyComboError Nat :=
  match mkKeyComboDefinition MainKey Mods with
  | .error e => (m, .error e)
  | .ok d => ((RegisterKeyCombo m d).1, .ok (RegisterKeyCombo m d).2)

/-- A sequence of `RegisterKeyCombo` calls, returning the final manager
and the handles in call order. -/
def registerAll (m : KeyComboManager) :
    List KeyComboDefinition → KeyComboManager × List Nat
  | [] => (m, [])
  | d :: ds =>
    ((registerAll (RegisterKeyCombo m d).1 ds).1,
     (RegisterKeyCombo m d).2 :: (registerAll (RegisterKeyCombo m d).1 ds).2)

lemma registerAll_spec (ds : List KeyComboDefinition) (m : KeyComboManager) :
    (registerAll m ds).1.KeyCombos = m.KeyCombos ++ ds.map initCombo ∧
    (registerAll m ds).2 = List.range' m.KeyCombos.length ds.length := by
  induction ds generalizing m with
  | nil => simp [registerAll]
  | cons d ds ih =>
    have h1 := (ih (RegisterKeyCombo m d).1).1
    have h2 := (ih (RegisterKeyCombo m d).1).2
    simp only [registerAll, RegisterKeyCombo] at *
    constructor
    · rw [h1]; simp
    · rw [h2]; simp [List.range'_succ]

/-- The state-passing form of the `const` member call `GetKeyCombo`: it
returns the queried state and the manager it was called on, which the
`const` qualifier guarantees is unchanged. -/
def GetKeyComboCall (m : KeyComboManager) (i : Nat) :
    Option HWButton × KeyComboManager :=
  (GetKeyCombo m i, m)

/-- A concrete Ctrl-C-like definition: terminal key 7 with modifier 3. -/
def wDef : KeyComboDefinition :=
  { Key := 7, ModifierCount := 1, Modifiers := [3] }

/-- A concrete modifier-free definition: terminal key 5, no modifiers. -/
def wDef0 : KeyComboDefinition :=
  { Key := 5, ModifierCount := 0, Modifiers := [] }

/-- A concrete one-entry registry. -/
def wMgr : KeyComboManager := { KeyCombos := [initCombo wDef] }

/-- A concrete host key state with every key freshly pressed and held. -/
def wKey : olc.Key → HWButton :=
  fun _ => { bPressed := true, bReleased := false, bHeld := true }

/-- A concrete host key state with every key up. -/
def wKeyUp : olc.Key → HWButton := fun _ => {}

/-- C1: on every evaluator invocation, each registered entry is updated by
`stepCombo`: its raw signal `StateNew` equals `modsHeld && (terminal
pressed || (held && terminal held))`; the pulse flags are reset; an edge
against the previous frame's raw signal `StateOld` sets
`pressed = !held, held = true` (rising) or `released = true, held = false`
(falling); with no edge the reset values are kept. -/
theorem evaluator_frame_formula (GetKey : olc.Key → HWButton)
    (m : KeyComboManager) (i : Nat) (kc : KeyCombo)
    (hget : m.KeyCombos[i]? = some kc) :
    (OnBeforeUserUpdate GetKey m).KeyCombos[i]? = some (stepCombo GetKey kc) ∧
    (stepCombo GetKey kc).StateNew =
      (modsHeld GetKey kc.Definition &&
        ((GetKey kc.Definition.Key).bPressed ||
          (kc.State.bHeld && (GetKey kc.Definition.Key).bHeld))) ∧
    (stepCombo GetKey kc).State =
      (if rawActive GetKey kc = kc.StateOld then
        { bPressed := false, bReleased := false, bHeld := kc.State.bHeld }
      else if rawActive GetKey kc then
        { bPressed := !kc.State.bHeld, bReleased := false, bHeld := true }
      else { bPressed := false, bReleased := true, bHeld := false }) := by
  refine ⟨?_, ?_, ?_⟩
  · simp [OnBeforeUserUpdate, List.getElem?_map, hget]
  · rw [stateNew_after]; rfl
  · rw [stepCombo_eq]

/-- C3: constructing and registering a combo with more than 4 modifiers
fails with `ConfigurationError`, adds no entry, and a subsequent
successful registration still returns the next handle. -/
theorem register_rejects_excess_modifiers (m : KeyComboManager)
    (MainKey : olc.Key) (Mods : List olc.Key) (d : KeyComboDefinition)
    (hlen : 4 < Mods.length) :
    (RegisterKeyComboChecked m MainKey Mods).2 =
      .error .ConfigurationError ∧
    (RegisterKeyComboChecked m MainKey Mods).1 = m ∧
    (RegisterKeyCombo (RegisterKeyComboChecked m MainKey Mods).1 d).2 =
      m.KeyCombos.length := by
  have hn : ¬ (Mods.length ≤ 4) := by omega
  refine ⟨?_, ?_, ?_⟩ <;>
    simp [RegisterKeyComboChecked, mkKeyComboDefinition, hn, RegisterKeyCombo]

/-- C4: evaluation of the code at the claim's failing input (Scenario D:
handle = registry size, here 1 on a one-entry registry).  The unchecked
read `KeyCombos[i]` falls outside the registry: no combo state is
returned, and the code computes no `InvalidHandleError` — the claim's
error kind exists nowhere in the source, whose out-of-range access is
undefined behaviour rather than a detected failure. -/
theorem getKeyCombo_out_of_range : GetKeyCombo wMgr 1 = none := rfl

/-- C5: registering from an empty registry returns handle `n` for the
`n`-th call (0-based, increasing), each new entry carries the all-false
state, and registration never disturbs the entries behind previously
issued handles. -/
theorem register_handles_sequential (ds : List KeyComboDefinition) (i : Nat)
    (hi : i < ds.length) (m : KeyComboManager) (d : KeyComboDefinition)
    (j : Nat) (hj : j < m.KeyCombos.length) :
    (registerAll { KeyCombos := [] } ds).2 = List.range ds.length ∧
    (registerAll { KeyCombos := [] } ds).1.KeyCombos[i]? =
      some (initCombo ds[i]) ∧
    (RegisterKeyCombo m d).1.KeyCombos[j]? = m.KeyCombos[j]? := by
  refine ⟨?_, ?_, ?_⟩
  · rw [(registerAll_spec ds { KeyCombos := [] }).2]
    simp [List.range_eq_range']
  · rw [(registerAll_spec ds { KeyCombos := [] }).1]
    simp [List.getElem?_map, List.getElem?_eq_getElem hi]
  · simp [RegisterKeyCombo, List.getElem?_append, hj]

/-- C9: `GetKeyCombo` on a valid handle is a pure read: the manager is
unchanged, a repeated call returns the identical value, and the value is
the stored entry's exposed state. -/
theorem getKeyCombo_pure (m : KeyComboManager) (i : Nat)
    (h : i < m.KeyCombos.length) :
    (GetKeyComboCall m i).2 = m ∧
    (GetKeyComboCall (GetKeyComboCall m i).2 i).1 = (GetKeyComboCall m i).1 ∧
    (GetKeyComboCall m i).1 = some m.KeyCombos[i].State := by
  refine ⟨rfl, rfl, ?_⟩
  simp [GetKeyComboCall, GetKeyCombo, List.getElem?_eq_getElem h]

/-- The per-frame entry states along a run: element `t` is the entry
right after the evaluator ran on frame `t`. -/
def comboTrace (kc : KeyCombo) : List (olc.Key → HWButton) → List KeyCombo
  | [] => []
  | g :: gs => stepCombo g kc :: comboTrace (stepCombo g kc) gs

/-- The entry after the evaluator ran on every frame of the list. -/
def runFrames (kc : KeyCombo) (frames : List (olc.Key → HWButton)) :
    KeyCombo :=
  frames.foldl (fun acc g => stepCombo g acc) kc

lemma pulse_count_aux (frames : List (olc.Key → HWButton)) (kc : KeyCombo)
    (h : kc.State.bHeld = kc.StateOld) :
    (comboTrace kc frames).countP (fun x => x.State.bPressed) +
        (if kc.State.bHeld then 1 else 0) =
      (comboTrace kc frames).countP (fun x => x.State.bReleased) +
        (if (runFrames kc frames).State.bHeld then 1 else 0) := by
  induction frames generalizing kc with
  | nil => simp [comboTrace, runFrames]
  | cons g gs ih =>
    have hinv : (stepCombo g kc).State.bHeld = (stepCombo g kc).StateOld := by
      rw [held_after _ _ h, stateOld_after]
    have hstep :
        (if (stepCombo g kc).State.bPressed then 1 else 0) +
            (if kc.State.bHeld then 1 else 0) =
          (if (stepCombo g kc).State.bReleased then 1 else 0) +
            (if (stepCombo g kc).State.bHeld then 1 else 0) := by
      rw [pressed_after _ _ h, released_after _ _ h, held_after _ _ h]
      cases kc.State.bHeld <;> cases rawActive g kc <;> simp
    have htail := ih (stepCombo g kc) hinv
    simp only [comboTrace, runFrames, List.foldl_cons, List.countP_cons]
    simp only [runFrames] at htail
    omega

/-- C2: against any reachable entry state, a frame step keeps the pulse
flags mutually exclusive, keeps `held` true whenever `pressed` is true
(both also hold of the reachable state itself), and produces a `pressed`
pulse exactly on the activation edge and a `released` pulse exactly on
the deactivation edge — so each flag is true for exactly one frame per
activation/deactivation cycle. -/
theorem combo_pulse_invariants (kc : KeyCombo) (h : Reachable kc)
    (GetKey : olc.Key → HWButton) :
    (¬(kc.State.bPressed = true ∧ kc.State.bReleased = true)) ∧
    (kc.State.bPressed = true → kc.State.bHeld = true) ∧
    (¬((stepCombo GetKey kc).State.bPressed = true ∧
        (stepCombo GetKey kc).State.bReleased = true)) ∧
    ((stepCombo GetKey kc).State.bPressed = true →
        (stepCombo GetKey kc).State.bHeld = true) ∧
    ((stepCombo GetKey kc).State.bPressed = true ↔
        ((stepCombo GetKey kc).State.bHeld = true ∧
          kc.State.bHeld = false)) ∧
    ((stepCombo GetKey kc).State.bReleased = true ↔
        ((stepCombo GetKey kc).State.bHeld = false ∧
          kc.State.bHeld = true)) := by
  have hflags := h.flags
  have hcur :
      (¬(kc.State.bPressed = true ∧ kc.State.bReleased = true)) ∧
      (kc.State.bPressed = true → kc.State.bHeld = true) := by
    clear hflags
    induction h with
    | registered d => simp [initCombo]
    | step g hr ih =>
      have hp := pressed_after g _ hr.flags.1
      have hr2 := released_after g _ hr.flags.1
      have hh := held_after g _ hr.flags.1
      constructor
      · rintro ⟨hp1, hr1⟩
        rw [hp] at hp1
        rw [hr2] at hr1
        rcases Bool.and_eq_true .. |>.mp hp1 with ⟨e1, e2⟩
        rcases Bool.and_eq_true .. |>.mp hr1 with ⟨e3, e4⟩
        simp_all
      · intro hp1
        rw [hp] at hp1
        rw [hh]
        exact (Bool.and_eq_true .. |>.mp hp1).2
  have hp := pressed_after GetKey _ hflags.1
  have hr2 := released_after GetKey _ hflags.1
  have hh := held_after GetKey _ hflags.1
  refine ⟨hcur.1, hcur.2, ?_, ?_, ?_, ?_⟩ <;>
    simp only [hp, hr2, hh] <;>
    cases hb : kc.State.bHeld <;> cases hrw : rawActive GetKey kc <;>
    simp [hb, hrw]

/-- C6: for a reachable entry with an empty modifier list the modifier
conjunction is vacuously true, so the combo's `held` becomes true exactly
on a frame where the terminal key is pressed, and stays true on a
subsequent frame whenever the terminal key is still held. -/
theorem zero_modifier_combo (kc : KeyCombo) (h : Reachable kc)
    (h0 : kc.Definition.ModifierCount = 0) (GetKey : olc.Key → HWButton) :
    modsHeld GetKey kc.Definition = true ∧
    (kc.State.bHeld = false →
      (stepCombo GetKey kc).State.bHeld =
        (GetKey kc.Definition.Key).bPressed) ∧
    (kc.State.bHeld = true → (GetKey kc.Definition.Key).bHeld = true →
      (stepCombo GetKey kc).State.bHeld = true) := by
  have hm : modsHeld GetKey kc.Definition = true := by
    simp [modsHeld, h0]
  have hh := held_after GetKey _ h.flags.1
  refine ⟨hm, ?_, ?_⟩
  · intro hb
    rw [hh, rawActive, hm, hb]
    cases (GetKey kc.Definition.Key).bPressed <;> simp
  · intro hb ht
    rw [hh, rawActive, hm, hb, ht]
    simp

/-- C7: a reachable entry that was not active on the previous frame
(`StateOld = false`) and has some effective modifier key unheld this frame
does not activate: after the step, `pressed` and `held` are both false. -/
theorem unheld_modifier_blocks_activation (kc : KeyCombo)
    (GetKey : olc.Key → HWButton) (h : Reachable kc)
    (_hold : kc.StateOld = false) (k : olc.Key)
    (hk : k ∈ kc.Definition.Modifiers.take kc.Definition.ModifierCount)
    (hkh : (GetKey k).bHeld = false) :
    (stepCombo GetKey kc).State.bPressed = false ∧
    (stepCombo GetKey kc).State.bHeld = false := by
  have hm : modsHeld GetKey kc.Definition = false := by
    rw [modsHeld]
    rcases hall : (kc.Definition.Modifiers.take kc.Definition.ModifierCount).all
        (fun k => (GetKey k).bHeld) with _ | _
    · rfl
    · have := (List.all_eq_true.mp hall) k hk
      simp_all
  have hraw : rawActive GetKey kc = false := by
    rw [rawActive, hm]
    rfl
  constructor
  · rw [pressed_after GetKey _ h.flags.1, hraw]
    simp
  · rw [held_after GetKey _ h.flags.1, hraw]

/-- C8: over any run from the just-registered (all-false) state, the
number of frames with a `pressed` pulse equals the number of frames with
a `released` pulse, plus one exactly when the combo is still active after
the last frame. -/
theorem pulse_counts_balance (d : KeyComboDefinition)
    (frames : List (olc.Key → HWButton)) :
    (comboTrace (initCombo d) frames).countP (fun x => x.State.bPressed) =
      (comboTrace (initCombo d) frames).countP (fun x => x.State.bReleased) +
        (if (runFrames (initCombo d) frames).State.bHeld then 1 else 0) := by
  have := pulse_count_aux frames (initCombo d) rfl
  simpa [initCombo] using this

/-- C10: every reachable entry (just registered, or after any number of
evaluator frames) keeps `State.bHeld = StateOld = StateNew`; consequently
an inactive combo re-activates only on a frame where the terminal key is
freshly pressed with all modifiers held — the terminal key's held signal
alone never re-activates it. -/
theorem held_matches_raw_signals (kc : KeyCombo) (h : Reachable kc)
    (GetKey : olc.Key → HWButton) :
    (kc.State.bHeld = kc.StateOld ∧ kc.StateOld = kc.StateNew) ∧
    (kc.State.bHeld = false →
      (stepCombo GetKey kc).State.bHeld =
        (modsHeld GetKey kc.Definition &&
          (GetKey kc.Definition.Key).bPressed)) := by
  refine ⟨h.flags, ?_⟩
  intro hb
  rw [held_after GetKey _ h.flags.1, rawActive, hb]
  cases modsHeld GetKey kc.Definition <;>
    cases (GetKey kc.Definition.Key).bPressed <;> simp

theorem evaluator_frame_formula_witness :
    wMgr.KeyCombos[0]? = some (initCombo wDef) ∧
    ((OnBeforeUserUpdate wKey wMgr).KeyCombos[0]? =
        some (stepCombo wKey (initCombo wDef)) ∧
      (stepCombo wKey (initCombo wDef)).StateNew =
        (modsHeld wKey (initCombo wDef).Definition &&
          ((wKey (initCombo wDef).Definition.Key).bPressed ||
            ((initCombo wDef).State.bHeld &&
              (wKey (initCombo wDef).Definition.Key).bHeld))) ∧
      (stepCombo wKey (initCombo wDef)).State =
        (if rawActive wKey (initCombo wDef) = (initCombo wDef).StateOld then
          { bPressed := false, bReleased := false,
            bHeld := (initCombo wDef).State.bHeld }
        else if rawActive wKey (initCombo wDef) then
          { bPressed := !(initCombo wDef).State.bHeld, bReleased := false,
            bHeld := true }
        else { bPressed := false, bReleased := true, bHeld := false })) :=
  ⟨rfl, evaluator_frame_formula wKey wMgr 0 (initCombo wDef) rfl⟩

theorem register_rejects_excess_modifiers_witness :
    4 < [1, 2, 3, 4, 5].length ∧
    ((RegisterKeyComboChecked wMgr 9 [1, 2, 3, 4, 5]).2 =
        .error .ConfigurationError ∧
      (RegisterKeyComboChecked wMgr 9 [1, 2, 3, 4, 5]).1 = wMgr ∧
      (RegisterKeyCombo (RegisterKeyComboChecked wMgr 9 [1, 2, 3, 4, 5]).1
          wDef0).2 = wMgr.KeyCombos.length) :=
  ⟨by decide,
    register_rejects_excess_modifiers wMgr 9 [1, 2, 3, 4, 5] wDef0
      (by decide)⟩

theorem register_handles_sequential_witness :
    (1 < [wDef, wDef0].length ∧ 0 < wMgr.KeyCombos.length) ∧
    ((registerAll { KeyCombos := [] } [wDef, wDef0]).2 =
        List.range [wDef, wDef0].length ∧
      (registerAll { KeyCombos := [] } [wDef, wDef0]).1.KeyCombos[1]? =
        some (initCombo wDef0) ∧
      (RegisterKeyCombo wMgr wDef0).1.KeyCombos[0]? = wMgr.KeyCombos[0]?) :=
  ⟨⟨by decide, by decide⟩,
    register_handles_sequential [wDef, wDef0] 1 (by decide) wMgr wDef0 0
      (by decide)⟩

theorem getKeyCombo_pure_witness :
    0 < wMgr.KeyCombos.length ∧
    ((GetKeyComboCall wMgr 0).2 = wMgr ∧
      (GetKeyComboCall (GetKeyComboCall wMgr 0).2 0).1 =
        (GetKeyComboCall wMgr 0).1 ∧
      (GetKeyComboCall wMgr 0).1 = some (initCombo wDef).State) :=
  ⟨by decide, getKeyCombo_pure wMgr 0 (by decide)⟩

theorem combo_pulse_invariants_witness :
    Reachable (initCombo wDef) ∧
    ((¬((initCombo wDef).State.bPressed = true ∧
        (initCombo wDef).State.bReleased = true)) ∧
      ((initCombo wDef).State.bPressed = true →
        (initCombo wDef).State.bHeld = true) ∧
      (¬((stepCombo wKey (initCombo wDef)).State.bPressed = true ∧
          (stepCombo wKey (initCombo wDef)).State.bReleased = true)) ∧
      ((stepCombo wKey (initCombo wDef)).State.bPressed = true →
          (stepCombo wKey (initCombo wDef)).State.bHeld = true) ∧
      ((stepCombo wKey (initCombo wDef)).State.bPressed = true ↔
          ((stepCombo wKey (initCombo wDef)).State.bHeld = true ∧
            (initCombo wDef).State.bHeld = false)) ∧
      ((stepCombo wKey (initCombo wDef)).State.bReleased = true ↔
          ((stepCombo wKey (initCombo wDef)).State.bHeld = false ∧
            (initCombo wDef).State.bHeld = true))) :=
  ⟨Reachable.registered wDef,
    combo_pulse_invariants (initCombo wDef) (Reachable.registered wDef) wKey⟩

theorem zero_modifier_combo_witness :
    Reachable (initCombo wDef0) ∧
    (initCombo wDef0).Definition.ModifierCount = 0 ∧
    (modsHeld wKey (initCombo wDef0).Definition = true ∧
      ((initCombo wDef0).State.bHeld = false →
        (stepCombo wKey (initCombo wDef0)).State.bHeld =
          (wKey (initCombo wDef0).Definition.Key).bPressed) ∧
      ((initCombo wDef0).State.bHeld = true →
        (wKey (initCombo wDef0).Definition.Key).bHeld = true →
        (stepCombo wKey (initCombo wDef0)).State.bHeld = true)) :=
  ⟨Reachable.registered wDef0, rfl,
    zero_modifier_combo (initCombo wDef0) (Reachable.registered wDef0) rfl
      wKey⟩

theorem unheld_modifier_blocks_activation_witness :
    Reachable (initCombo wDef) ∧
    (initCombo wDef).StateOld = false ∧
    (3 ∈ (initCombo wDef).Definition.Modifiers.take
        (initCombo wDef).Definition.ModifierCount) ∧
    (wKeyUp 3).bHeld = false ∧
    ((stepCombo wKeyUp (initCombo wDef)).State.bPressed = false ∧
      (stepCombo wKeyUp (initCombo wDef)).State.bHeld = false) :=
  ⟨Reachable.registered wDef, rfl, by decide, rfl,
    unheld_modifier_blocks_activation (initCombo wDef) wKeyUp
      (Reachable.registered wDef) rfl 3 (by decide) rfl⟩

theorem held_matches_raw_signals_witness :
    Reachable (initCombo wDef) ∧
    (((initCombo wDef).State.bHeld = (initCombo wDef).StateOld ∧
        (initCombo wDef).StateOld = (initCombo wDef).StateNew) ∧
      ((initCombo wDef).State.bHeld = false →
        (stepCombo wKeyUp (initCombo wDef)).State.bHeld =
          (modsHeld wKeyUp (initCombo wDef).Definition &&
            (wKeyUp (initCombo wDef).Definition.Key).bPressed))) :=
  ⟨Reachable.registered wDef,
    held_matches_raw_signals (initCombo wDef) (Reachable.registered wDef)
      wKeyUp⟩

end keycombo

end olc
